import Mathlib

/-!
Verification of the chunked-upload assembly and document-conversion pipeline
(`routes/tools.js` of the tools-backend repository).

Strings that the JavaScript code compares and sorts (file names, registry
keys) are embedded as their code-point sequences (`List ℕ`); byte buffers are
embedded as `List ℕ`.  JavaScript numbers occurring in the layout computation
are embedded as exact rationals (`ℚ`), with `Math.round x` embedded as
`⌊x + 1/2⌋` (round half toward +∞) and the `NaN` produced by `parseInt` on
non-numeric input tracked through `Option`.
-/

/-- Byte buffers (Node `Buffer`) as lists of byte values. -/
abbrev Bytes : Type := List ℕ

/-- File names and registry keys as code-point sequences of the JS string. -/
abbrev Filename : Type := List ℕ

/-- Code points of a string literal, the embedding of a JS string constant. -/
def strCodes (s : String) : List ℕ := s.data.map Char.toNat

/-- First-match association lookup: the embedding both of reading a file of a
given name from a directory listing and of `Map.get` on the in-memory
`tempStore` (entries are consed on update, so the first match is the most
recent write, matching `Map.set` overwrite semantics). -/
def alookup {α β : Type} [DecidableEq α] (l : List (α × β)) (k : α) : Option β :=
  match l with
  | [] => none
  | e :: rest => if e.1 = k then some e.2 else alookup rest k

/-- Chunk file name used by the `chunkUpload` disk storage:
`chunk_${req.body.chunkIndex}` (tools.js line 244). -/
def chunkName (idx : String) : Filename := strCodes ("chunk_" ++ idx)

/-- The directory filter of the assemble handler:
`f.startsWith('chunk_')` (tools.js line 265). -/
def isChunkFile (f : Filename) : Bool := (strCodes "chunk_").isPrefixOf f

/-- Chunk names of a session directory, filtered to `chunk_*` and sorted by
name, the embedding of
`fs.readdirSync(dir).filter(f=>f.startsWith('chunk_')).sort((a,b)=>a.localeCompare(b))`
(tools.js line 265).  `localeCompare` on these ASCII names is the
code-point lexicographic order, the `≤` of `List ℕ`. -/
def sortedChunkNames (dir : List (Filename × Bytes)) : List Filename :=
  List.insertionSort (· ≤ ·) ((dir.map Prod.fst).filter isChunkFile)

/-- The bytes written to the assembled output file: each chunk file's content
appended in sorted-name order (tools.js lines 270-277). -/
def assembleBytes (dir : List (Filename × Bytes)) : Bytes :=
  ((sortedChunkNames dir).map (fun n => (alookup dir n).getD [])).flatten

/-- Session directory contents produced by uploading the given
`(chunkIndex, bytes)` sequence through `POST /upload-chunk`; each upload
stores its bytes under `chunk_${chunkIndex}` (tools.js lines 235-246). -/
def storeChunks (uploads : List (String × Bytes)) : List (Filename × Bytes) :=
  uploads.map (fun u => (chunkName u.1, u.2))

/-- Embedding of Node `path.basename` on a code-point sequence: trailing
separators are dropped, then the part after the last separator is kept. -/
def basenameCodes (f : List ℕ) : List ℕ :=
  ((f.reverse.dropWhile (· == 47)).takeWhile (· != 47)).reverse

/-- Registry key for an assembled artifact:
`${uploadId}__${path.basename(filename)}` (tools.js lines 128-130). -/
def makeTempKey (uploadId filename : List ℕ) : List ℕ :=
  uploadId ++ strCodes "__" ++ basenameCodes filename

/-- Server state visible to the upload/assembly routes: the chunk directories
under `upload_chunks/<uploadId>`, the assembled artifact files (identified by
creation index), and the in-memory `tempStore` registry mapping keys to
artifact file indices. -/
structure ToolsState where
  chunkDirs : List (String × List (Filename × Bytes))
  assembled : List Bytes
  tempStore : List (List ℕ × ℕ)
deriving DecidableEq

/-- Response of `POST /assemble-upload`. -/
inductive AssembleResponse where
  | ok (tempKey : List ℕ)
  | badRequest (msg : String)
deriving DecidableEq

/-- Truthiness of an optional JS string field: `undefined` and `""` are falsy. -/
def falsyStr : Option String → Bool
  | none => true
  | some s => s = ""

/-- Embedding of the `POST /assemble-upload` handler (tools.js lines 259-285):
validate fields, fail if the session directory is missing or holds no
`chunk_*` file, otherwise concatenate the chunks in sorted-name order into a
fresh artifact, delete the session directory, and register the artifact in
`tempStore` under `makeTempKey`. -/
def assembleUpload (st : ToolsState) (uploadId filename : Option String) :
    AssembleResponse × ToolsState :=
  if falsyStr uploadId || falsyStr filename then
    (.badRequest "uploadId and filename required", st)
  else
    let uid := uploadId.getD ""
    let fname := filename.getD ""
    match alookup st.chunkDirs uid with
    | none => (.badRequest "No chunks found for uploadId", st)
    | some dir =>
      if sortedChunkNames dir = [] then
        (.badRequest "No chunks found", st)
      else
        let outBytes := assembleBytes dir
        let key := makeTempKey (strCodes uid) (strCodes fname)
        (.ok key,
          { chunkDirs := st.chunkDirs.filter (fun d => d.1 ≠ uid)
            assembled := st.assembled ++ [outBytes]
            tempStore := (key, st.assembled.length) :: st.tempStore })

/-- Embedding of JS `parseInt(s, 10)`: skip leading whitespace, read an
optional sign and a decimal digit run; `none` stands for `NaN` (no digits). -/
def parseIntDigits (cs : List Char) : Option ℕ :=
  let ds := cs.takeWhile Char.isDigit
  if ds = [] then none
  else some (ds.foldl (fun a c => 10 * a + (c.toNat - 48)) 0)

/-- Embedding of JS `parseInt(s, 10)` on a whole string. -/
def parseIntJS (s : String) : Option ℤ :=
  let cs := s.data.dropWhile (fun c => c == ' ' || c == '\t' || c == '\n' || c == '\r')
  match cs with
  | '-' :: rest => (parseIntDigits rest).map (fun n => -(n : ℤ))
  | '+' :: rest => (parseIntDigits rest).map (fun n => (n : ℤ))
  | _ => (parseIntDigits cs).map (fun n => (n : ℤ))

/-- The effective JPEG quality of `POST /image-to-pdf`:
`Math.max(5, Math.min(100, parseInt(req.body.quality || '80', 10)))`
(tools.js line 169).  A missing or empty field falls back to `'80'`; a
non-numeric field makes `parseInt` return `NaN`, which propagates through
`Math.min`/`Math.max` and is embedded as `none`. -/
def effectiveQuality (q : Option String) : Option ℤ :=
  let s := match q with
    | none => "80"
    | some s => if s = "" then "80" else s
  match parseIntJS s with
  | none => none
  | some n => some (max 5 (min 100 n))

/-- Embedding of JS `Math.round`: round half toward positive infinity. -/
def jsRound (x : ℚ) : ℤ := ⌊x + 1/2⌋

/-- Page geometry computed for one image, the output of the layout code of
`POST /image-to-pdf` (tools.js lines 203-222): page size, position the image
is drawn at, and drawn image size. -/
structure Placement where
  pageW : ℚ
  pageH : ℚ
  posX : ℚ
  posY : ℚ
  drawW : ℚ
  drawH : ℚ
deriving DecidableEq

/-- The `auto` page-size branch (tools.js lines 216-222): the page is the
image's own rounded pixel size plus the margins on each side, and the image is
drawn at `(margin, margin)` at its own size. -/
def autoLayout (w h : ℕ) (m : ℚ) : Placement :=
  let ptsW : ℕ := max 1 w
  let ptsH : ℕ := max 1 h
  { pageW := ptsW + m * 2
    pageH := ptsH + m * 2
    posX := m
    posY := m
    drawW := ptsW
    drawH := ptsH }

/-- The point dimensions of the two named page presets (tools.js lines
183-186), as exact rationals. -/
def presetDims : String → Option (ℚ × ℚ)
  | "a4" => some (59528/100, 84189/100)
  | "letter" => some (612, 792)
  | _ => none

/-- The scale applied in the named-preset branch:
`Math.min(maxW / width, maxH / height, 1)` (tools.js line 208). -/
def presetScale (pageW pageH m : ℚ) (w h : ℕ) : ℚ :=
  min ((pageW - m * 2) / w) (min ((pageH - m * 2) / h) 1)

/-- The named-preset branch (tools.js lines 203-215): orientation `landscape`
swaps the preset dimensions, the image is scaled by `presetScale` (never
above 1), drawn dimensions are rounded, and the image is centered on the
page. -/
def presetLayout (presetW presetH : ℚ) (landscape : Bool) (m : ℚ) (w h : ℕ) :
    Placement :=
  let dims : ℚ × ℚ := if landscape then (presetH, presetW) else (presetW, presetH)
  let scale := presetScale dims.1 dims.2 m w h
  let drawW := jsRound (w * scale)
  let drawH := jsRound (h * scale)
  { pageW := dims.1
    pageH := dims.2
    posX := jsRound ((dims.1 - drawW) / 2)
    posY := jsRound ((dims.2 - drawH) / 2)
    drawW := drawW
    drawH := drawH }

/-- Events emitted by the pdfkit document stream: data chunks, then `end`. -/
inductive DocEvent where
  | data (b : Bytes)
  | done
deriving DecidableEq

/-- Embedding of the response wiring of `POST /image-to-pdf` (tools.js lines
174-181): every `data` chunk is pushed onto the in-memory `chunks` array, and
only on the `end` event is `Buffer.concat(chunks)` sent as the single
response write.  The result is the list of writes made to the HTTP
response. -/
def runDocEvents (acc : List Bytes) : List DocEvent → List Bytes
  | [] => []
  | .data b :: rest => runDocEvents (acc ++ [b]) rest
  | .done :: _ => [acc.flatten]

/-- Writes made to the HTTP response by `POST /image-to-pdf` for a given
document event stream. -/
def responseWrites (evs : List DocEvent) : List Bytes := runDocEvents [] evs

/-- Embedding of JS `String.prototype.trim` on code points (ASCII whitespace
suffices for the keys at hand). -/
def trimCodes (l : List ℕ) : List ℕ :=
  ((l.dropWhile isWsCode).reverse.dropWhile isWsCode).reverse
where
  isWsCode (c : ℕ) : Bool := c == 32 || c == 9 || c == 10 || c == 13

/-- Embedding of JS `String.prototype.split(sep)` for a one-character
separator, on code points; empty segments are kept (the later `filter`
removes them). -/
def splitOnCode (sep : ℕ) (l : List ℕ) : List (List ℕ) :=
  match l with
  | [] => [[]]
  | c :: rest =>
    let s := splitOnCode sep rest
    if c = sep then [] :: s
    else match s with
      | [] => [[c]]
      | seg :: segs => (c :: seg) :: segs

/-- Parsing of the `tempKeys` form field:
`String(req.body.tempKeys).split(',').map(k=>k.trim()).filter(Boolean)`
(tools.js lines 154 and 314). -/
def parseTempKeys (tk : List ℕ) : List (List ℕ) :=
  (((splitOnCode 44 tk).map trimCodes).filter (fun k => !k.isEmpty))

/-- Result of resolving the source PDF of `POST /pdf-to-images`. -/
inductive PdfSourceResult where
  | ok (p : ℕ)
  | badRequest (msg : String)
deriving DecidableEq

/-- Resolution of a parsed `tempKeys` list (tools.js lines 314-318): an empty
list is rejected, otherwise only `keys[0]` is looked up in `tempStore`. -/
def resolveParsedKeys (keys : List (List ℕ)) (store : List (List ℕ × ℕ)) :
    PdfSourceResult :=
  match keys with
  | [] => .badRequest "No tempKeys provided"
  | k :: _ =>
    match alookup store k with
    | none => .badRequest "Missing assembled file for provided tempKey"
    | some p => .ok p

/-- Embedding of the source resolution of `POST /pdf-to-images` (tools.js
lines 312-328): a truthy `tempKeys` field is parsed and resolved through the
registry; otherwise an uploaded file buffer (already persisted to a scratch
path `up`) is used; otherwise the request is rejected. -/
def resolvePdfSource (tempKeys : Option (List ℕ)) (uploadedPath : Option ℕ)
    (store : List (List ℕ × ℕ)) : PdfSourceResult :=
  match tempKeys with
  | some tk =>
    if tk = [] then
      match uploadedPath with
      | some p => .ok p
      | none => .badRequest "No PDF uploaded"
    else resolveParsedKeys (parseTempKeys tk) store
  | none =>
    match uploadedPath with
    | some p => .ok p
    | none => .badRequest "No PDF uploaded"

/-- Embedding of JS `String.prototype.toLowerCase` on ASCII code points. -/
def toLowerCodes (l : List ℕ) : List ℕ :=
  l.map (fun c => if 65 ≤ c ∧ c ≤ 90 then c + 32 else c)

/-- The output-file filter of `POST /pdf-to-images`:
`f.toLowerCase().endsWith('.png')` (tools.js line 349). -/
def isPngFile (f : Filename) : Bool := (strCodes ".png").isSuffixOf (toLowerCodes f)

/-- The rasterizer output names of the working directory, filtered to `.png`
and sorted by name (tools.js line 349). -/
def sortedPngNames (dir : List (Filename × Bytes)) : List Filename :=
  List.insertionSort (· ≤ ·) ((dir.map Prod.fst).filter isPngFile)

/-- Archive entry name `page_${idx+1}.png` (tools.js line 362). -/
def entryName (i : ℕ) : Filename :=
  strCodes "page_" ++ (Nat.toDigits 10 i).map Char.toNat ++ strCodes ".png"

/-- Renaming loop of `POST /pdf-to-images` (tools.js lines 360-364): the
`idx`-th sorted file is stored in the archive as `page_${idx+1}.png` with that
file's bytes. -/
def numberEntries (i : ℕ) (files : List Filename) (content : Filename → Bytes) :
    List (Filename × Bytes) :=
  match files with
  | [] => []
  | f :: fs => (entryName (i + 1), content f) :: numberEntries (i + 1) fs content

/-- The archive built by `POST /pdf-to-images` from the rasterizer's working
directory (tools.js lines 349-365). -/
def archiveEntries (dir : List (Filename × Bytes)) : List (Filename × Bytes) :=
  numberEntries 0 (sortedPngNames dir) (fun n => (alookup dir n).getD [])

/-- Decimal digits of `n`, most significant first, left-padded with zeros to
width `w` (the digit list of `n % 10^w`). -/
def padDigits : ℕ → ℕ → List ℕ
  | 0, _ => []
  | w + 1, n => n / 10 ^ w :: padDigits w (n % 10 ^ w)

/-- Modelled from the spec: the external rasterizer (`pdftoppm`, invoked at
tools.js line 342 but not part of this repository) names its output
`<prefix>-<page>.png` with the page number left-padded with zeros to the
digit width of the page count, so that for `w` that width the name of page
`i` is `page-<pad_w(i)>.png`. -/
def pdftoppmName (w i : ℕ) : Filename :=
  strCodes "page-" ++ (padDigits w i).map (fun d => 48 + d) ++ strCodes ".png"

/-- The working directory produced by rasterizing a `K`-page document whose
page `i` rasterizes to `raster i`, listed in some arbitrary order: it is a
permutation of the canonical listing below. -/
def rasterDirCanonical (w K : ℕ) (raster : ℕ → Bytes) : List (Filename × Bytes) :=
  (List.range' 1 K).map (fun i => (pdftoppmName w i, raster i))

/-- Response of `POST /pdf-to-images`. -/
inductive PdfImagesResponse where
  | archive (entries : List (Filename × Bytes))
  | badRequest (msg : String)
  | serverError (msg : String)
deriving DecidableEq

/-- Side effects of `POST /pdf-to-images` tracked by the embedding: whether
the per-request output working directory (`mkdtempSync('pdf_images_')`,
tools.js line 337) was created and whether the rasterizer was invoked
(tools.js line 342). -/
structure RasterEffects where
  workDirCreated : Bool
  rasterized : Bool
deriving DecidableEq

/-- Embedding of the `POST /pdf-to-images` handler (tools.js lines 309-365):
resolve the source, probe `pdftoppm` availability and fail with a 500 naming
the dependency if absent, then create the working directory, rasterize, and
archive the sorted `.png` outputs under `page_<i>.png` names.
`rasterOutput p` is the working-directory listing the external tool produces
for the document at path `p`. -/
def pdfToImages (tempKeys : Option (List ℕ)) (uploadedPath : Option ℕ)
    (store : List (List ℕ × ℕ)) (available : Bool)
    (rasterOutput : ℕ → List (Filename × Bytes)) :
    PdfImagesResponse × RasterEffects :=
  match resolvePdfSource tempKeys uploadedPath store with
  | .badRequest m => (.badRequest m, ⟨false, false⟩)
  | .ok p =>
    if !available then
      (.serverError "Server requires `pdftoppm` (Poppler). Please install poppler-utils (pdftoppm).",
        ⟨false, false⟩)
    else
      let dir := rasterOutput p
      if sortedPngNames dir = [] then
        (.serverError "No images generated from PDF", ⟨true, true⟩)
      else
        (.archive (archiveEntries dir), ⟨true, true⟩)

/-- Substring test on code-point sequences (used to state that an error
message names a missing dependency). -/
def containsSeq (pat l : List ℕ) : Bool := l.tails.any (fun t => pat.isPrefixOf t)

theorem le_of_lexLt {a b : List ℕ} (h : List.Lex (· < ·) a b) : a ≤ b :=
  Or.inr h

theorem ne_of_lexLt {a b : List ℕ} (h : List.Lex (· < ·) a b) : a ≠ b :=
  ne_of_lt (show a < b from h)

theorem insertionSort_eq_of_perm_sorted {l l2 : List (List ℕ)}
    (hp : l.Perm l2) (hs : l2.Sorted (· ≤ ·)) :
    List.insertionSort (· ≤ ·) l = l2 :=
  List.eq_of_perm_of_sorted ((List.perm_insertionSort _ l).trans hp)
    (List.sorted_insertionSort _ l) hs

theorem alookup_eq_of_perm {β : Type} {l1 l2 : List (List ℕ × β)}
    (hp : l1.Perm l2) (hn : (l1.map Prod.fst).Nodup) (k : List ℕ) :
    alookup l1 k = alookup l2 k := by
  induction hp with
  | nil => rfl
  | cons x _ ih =>
    simp only [alookup]
    split
    · rfl
    · exact ih (by simpa using (List.nodup_cons.mp (by simpa using hn)).2)
  | swap x y l =>
    have hn' : y.1 ∉ x.1 :: l.map Prod.fst ∧ (x.1 :: l.map Prod.fst).Nodup := by
      rw [List.map_cons, List.map_cons] at hn
      exact List.nodup_cons.mp hn
    have hxy : y.1 ≠ x.1 := fun e => hn'.1 (by rw [e]; exact List.mem_cons_self _ _)
    by_cases h1 : y.1 = k <;> by_cases h2 : x.1 = k
    · exact absurd (h1.trans h2.symm) hxy
    · simp [alookup, h1, h2]
    · simp [alookup, h1, h2]
    · simp [alookup, h1, h2]
  | trans h1 _ ih1 ih2 =>
    exact (ih1 hn).trans (ih2 (((h1.map Prod.fst).nodup_iff).mp hn))

/-- C1: the spec requires chunk indices that parse as integers to be
concatenated in ascending numeric order, but the assemble handler sorts the
stored names only lexicographically; for indices `"2"`, `"10"`, `"1"` (with
one-byte contents 2, 10, 1) the assembled artifact is
chunk("1") ++ chunk("10") ++ chunk("2"), not the mandated numeric order
chunk("1") ++ chunk("2") ++ chunk("10"). -/
theorem c1_assemble_lexicographic_not_numeric :
    assembleBytes [(chunkName "2", [2]), (chunkName "10", [10]), (chunkName "1", [1])]
      = [1, 10, 2] ∧
    assembleBytes [(chunkName "2", [2]), (chunkName "10", [10]), (chunkName "1", [1])]
      ≠ [1, 2, 10] := by
  decide

/-- C2 (amended): for every request whose `quality` field is absent or has a
parseable integer prefix, the effective quality is bounded within [1,100]
(the code in fact clamps to [5,100]), and it defaults to 80 when the field is
omitted; a wholly non-numeric `quality` makes `parseInt` return `NaN`, which
escapes the clamp (see the counterexample). -/
theorem c2_quality_clamped_and_default :
    (∀ (q : Option String) (v : ℤ), effectiveQuality q = some v → 1 ≤ v ∧ v ≤ 100) ∧
    effectiveQuality none = some 80 := by
  constructor
  · have key : ∀ (s : String) (v : ℤ),
        (match parseIntJS s with
          | none => (none : Option ℤ)
          | some n => some (max 5 (min 100 n))) = some v → 1 ≤ v ∧ v ≤ 100 := by
      intro s v hv
      rcases hs : parseIntJS s with _ | n
      · rw [hs] at hv; cases hv
      · rw [hs] at hv
        simp only [Option.some.injEq] at hv
        omega
    intro q v h
    cases q with
    | none => exact key "80" v h
    | some s => exact key (if s = "" then "80" else s) v h
  · decide

/-- C2 witness: a concrete request with `quality = "95"` yields the in-range
effective quality 95. -/
theorem c2_quality_clamped_and_default_witness :
    (1 ≤ (95 : ℤ) ∧ (95 : ℤ) ≤ 100) ∧ effectiveQuality none = some 80 :=
  ⟨c2_quality_clamped_and_default.1 (some "95") 95 (by decide),
   c2_quality_clamped_and_default.2⟩

/-- C2 counterexample: the claim as stated fails for a request whose
`quality` field is non-numeric — the effective value is `NaN` (embedded as
`none`), not an integer in [1,100]. -/
theorem c2_nan_quality_counterexample :
    effectiveQuality (some "high") = none ∧
    ¬ (∃ v : ℤ, effectiveQuality (some "high") = some v ∧ 1 ≤ v ∧ v ≤ 100) := by
  have h : effectiveQuality (some "high") = none := by decide
  refine ⟨h, ?_⟩
  rintro ⟨v, hv, -⟩
  rw [h] at hv
  cases hv

/-- C3: under the `auto` page-size policy with margin `m ≥ 0` and an image of
dimensions `(w, h)` (both at least one pixel), the page is exactly
`(w + 2m, h + 2m)`, the image is drawn at `(m, m)`, and the drawn size equals
the image size (scale 1, no resizing). -/
theorem c3_auto_layout_exact (w h : ℕ) (m : ℚ) (hw : 1 ≤ w) (hh : 1 ≤ h)
    (hm : 0 ≤ m) :
    autoLayout w h m =
      { pageW := w + 2 * m, pageH := h + 2 * m, posX := m, posY := m,
        drawW := w, drawH := h } := by
  simp only [autoLayout]
  rw [Nat.max_eq_right hw, Nat.max_eq_right hh]
  congr 1 <;> ring

/-- C3 witness: a 100×200 image with margin 5. -/
theorem c3_auto_layout_exact_witness :
    (1 ≤ 100 ∧ 1 ≤ 200 ∧ (0 : ℚ) ≤ 5) ∧
    autoLayout 100 200 5 =
      { pageW := 110, pageH := 210, posX := 5, posY := 5,
        drawW := 100, drawH := 200 } :=
  ⟨⟨by norm_num, by norm_num, by norm_num⟩,
   by
    have := c3_auto_layout_exact 100 200 5 (by norm_num) (by norm_num) (by norm_num)
    rw [this]
    norm_num⟩

/-- C5: calling assemble for a session with zero stored chunks (no session
directory, or a directory with no `chunk_*` file) returns a 400 no-chunks
error, and the server state is unchanged: no artifact file is created and no
entry is added to the `tempStore` registry. -/
theorem c5_assemble_empty_session (st : ToolsState) (uid f : String)
    (huid : uid ≠ "") (hf : f ≠ "")
    (h : ∀ dir, alookup st.chunkDirs uid = some dir →
      (dir.map Prod.fst).filter isChunkFile = []) :
    ((assembleUpload st (some uid) (some f)).1 = .badRequest "No chunks found for uploadId" ∨
     (assembleUpload st (some uid) (some f)).1 = .badRequest "No chunks found") ∧
    (assembleUpload st (some uid) (some f)).2 = st := by
  have hfalsy : (falsyStr (some uid) || falsyStr (some f)) = false := by
    simp [falsyStr, huid, hf]
  unfold assembleUpload
  rw [hfalsy]
  cases hd : alookup st.chunkDirs uid with
  | none => simp [hd]
  | some dir =>
    have hempty : sortedChunkNames dir = [] := by
      unfold sortedChunkNames
      rw [h dir hd]
      rfl
    simp [hd, hempty]

/-- C5 witness: assembling the session `"u1"` in a state whose only session
directory for `"u1"` holds no `chunk_*` file. -/
theorem c5_assemble_empty_session_witness :
    ("u1" ≠ "" ∧ "a.bin" ≠ "") ∧
    ((assembleUpload ⟨[("u1", [(strCodes "note", [9])])], [[4]], [(strCodes "k", 0)]⟩
        (some "u1") (some "a.bin")).1
          = AssembleResponse.badRequest "No chunks found for uploadId" ∨
     (assembleUpload ⟨[("u1", [(strCodes "note", [9])])], [[4]], [(strCodes "k", 0)]⟩
        (some "u1") (some "a.bin")).1
          = AssembleResponse.badRequest "No chunks found") ∧
    (assembleUpload ⟨[("u1", [(strCodes "note", [9])])], [[4]], [(strCodes "k", 0)]⟩
        (some "u1") (some "a.bin")).2 =
      ⟨[("u1", [(strCodes "note", [9])])], [[4]], [(strCodes "k", 0)]⟩ :=
  ⟨⟨by decide, by decide⟩,
   (c5_assemble_empty_session _ "u1" "a.bin" (by decide) (by decide)
     (by intro dir hdir; simp [alookup] at hdir; subst hdir; decide)).1,
   (c5_assemble_empty_session _ "u1" "a.bin" (by decide) (by decide)
     (by intro dir hdir; simp [alookup] at hdir; subst hdir; decide)).2⟩

/-- C9 counterexample: a document generated as two data chunks is sent to the
client in a single response write that already contains the whole document,
so the output is not produced incrementally. -/
theorem c9_not_streamed_counterexample :
    responseWrites [DocEvent.data [1], DocEvent.data [2], DocEvent.done] = [[1, 2]] ∧
    ¬ 2 ≤ (responseWrites [DocEvent.data [1], DocEvent.data [2], DocEvent.done]).length := by
  decide

/-- C9 (amended): the image-to-document handler buffers every document chunk
in memory and performs exactly one response write, containing the whole
concatenated document — the document is fully materialized before the first
byte is emitted. -/
theorem c9_single_write_full_document (chunks : List Bytes) :
    responseWrites (chunks.map DocEvent.data ++ [DocEvent.done]) = [chunks.flatten] := by
  have aux : ∀ (cs : List Bytes) (acc : List Bytes),
      runDocEvents acc (cs.map DocEvent.data ++ [DocEvent.done]) = [(acc ++ cs).flatten] := by
    intro cs
    induction cs with
    | nil => intro acc; simp [runDocEvents]
    | cons b bs ih =>
      intro acc
      simp only [List.map_cons, List.cons_append, runDocEvents, List.append_eq]
      rw [ih (acc ++ [b])]
      simp
  simpa [responseWrites] using aux chunks []

/-- C10: when the document-to-images request supplies several registry keys,
only the first parsed key is used to resolve the source: the result equals
resolving the singleton first key, the request fails with a 400
missing-artifact error exactly when the first key is unregistered (whatever
the later keys resolve to), and a registered first key resolves to its
registered path. -/
theorem c10_only_first_temp_key (store : List (List ℕ × ℕ)) (up : Option ℕ)
    (tk : List ℕ) (k1 k2 : List ℕ) (rest : List (List ℕ))
    (htk : tk ≠ [])
    (hparse : parseTempKeys tk = k1 :: k2 :: rest) :
    resolvePdfSource (some tk) up store = resolveParsedKeys [k1] store ∧
    ((∃ msg, resolvePdfSource (some tk) up store = .badRequest msg) ↔
      alookup store k1 = none) ∧
    (∀ p, alookup store k1 = some p → resolvePdfSource (some tk) up store = .ok p) := by
  have hres : resolvePdfSource (some tk) up store =
      resolveParsedKeys (k1 :: k2 :: rest) store := by
    simp only [resolvePdfSource]
    rw [if_neg htk, hparse]
  have hfirst : resolveParsedKeys (k1 :: k2 :: rest) store =
      resolveParsedKeys [k1] store := rfl
  refine ⟨hres.trans hfirst, ?_, ?_⟩
  · constructor
    · rintro ⟨msg, hmsg⟩
      rw [hres] at hmsg
      cases hl : alookup store k1 with
      | none => rfl
      | some p => simp only [resolveParsedKeys, hl] at hmsg; cases hmsg
    · intro hl
      exact ⟨"Missing assembled file for provided tempKey",
        by rw [hres]; simp [resolveParsedKeys, hl]⟩
  · intro p hp
    rw [hres]
    simp [resolveParsedKeys, hp]

/-- C10 witness: with only `"b"` registered, the request `tempKeys = "a,b"`
fails on the unregistered first key `"a"` even though the later key `"b"` is
registered. -/
theorem c10_only_first_temp_key_witness :
    (strCodes "a,b" ≠ [] ∧
     parseTempKeys (strCodes "a,b") = [strCodes "a", strCodes "b"]) ∧
    (resolvePdfSource (some (strCodes "a,b")) none [(strCodes "b", 7)] =
       resolveParsedKeys [strCodes "a"] [(strCodes "b", 7)] ∧
     ((∃ msg, resolvePdfSource (some (strCodes "a,b")) none [(strCodes "b", 7)] =
        PdfSourceResult.badRequest msg) ↔
       alookup [(strCodes "b", 7)] (strCodes "a") = none) ∧
     (∀ p, alookup [(strCodes "b", 7)] (strCodes "a") = some p →
       resolvePdfSource (some (strCodes "a,b")) none [(strCodes "b", 7)] =
         PdfSourceResult.ok p)) :=
  ⟨⟨by decide, by decide⟩,
   c10_only_first_temp_key [(strCodes "b", 7)] none (strCodes "a,b")
     (strCodes "a") (strCodes "b") [] (by decide) (by decide)⟩

/-- C8: when the external rasterizer is unavailable, any request whose source
resolves successfully gets a 500 response whose message names the missing
`pdftoppm` dependency, and neither the per-request output working directory
is created nor the rasterizer invoked. -/
theorem c8_missing_rasterizer_short_circuit (tempKeys : Option (List ℕ))
    (up : Option ℕ) (store : List (List ℕ × ℕ))
    (rasterOutput : ℕ → List (Filename × Bytes)) (p : ℕ)
    (hres : resolvePdfSource tempKeys up store = .ok p) :
    pdfToImages tempKeys up store false rasterOutput =
      (.serverError "Server requires `pdftoppm` (Poppler). Please install poppler-utils (pdftoppm).",
        ⟨false, false⟩) ∧
    containsSeq (strCodes "pdftoppm")
      (strCodes "Server requires `pdftoppm` (Poppler). Please install poppler-utils (pdftoppm).")
      = true := by
  constructor
  · simp only [pdfToImages]
    rw [hres]
    rfl
  · decide


/-- C8 witness: an uploaded file at scratch path 3, rasterizer absent. -/
theorem c8_missing_rasterizer_short_circuit_witness :
    resolvePdfSource none (some 3) [] = PdfSourceResult.ok 3 ∧
    (pdfToImages none (some 3) [] false (fun _ => []) =
      (.serverError "Server requires `pdftoppm` (Poppler). Please install poppler-utils (pdftoppm).",
        ⟨false, false⟩) ∧
     containsSeq (strCodes "pdftoppm")
      (strCodes "Server requires `pdftoppm` (Poppler). Please install poppler-utils (pdftoppm).")
      = true) :=
  ⟨by decide,
   c8_missing_rasterizer_short_circuit none (some 3) [] (fun _ => []) 3 (by decide)⟩

/-- C4 counterexample: letter preset, portrait, margin 1/4 pt, image
1223×1 px.  The scale is exactly 1/2 and `Math.round(1223 * 1/2) = 612`,
which exceeds the available width `612 - 2·(1/4) = 611.5`; the claimed bound
`drawWidth ≤ presetWidth - 2m` fails. -/
theorem c4_round_exceeds_available_counterexample :
    ¬ ((presetLayout 612 792 false (1/4) 1223 1).drawW ≤ 612 - 2 * (1/4)) := by
  have hs : presetScale 612 792 (1/4) 1223 1 = 1/2 := by
    unfold presetScale
    rw [min_eq_right (by norm_num : (1 : ℚ) ≤ ((792 : ℚ) - (1/4) * 2) / (1 : ℕ))]
    rw [min_eq_left (by norm_num : (((612 : ℚ) - (1/4) * 2) / (1223 : ℕ) : ℚ) ≤ 1)]
    norm_num
  have hd : (presetLayout 612 792 false (1/4) 1223 1).drawW =
      ((jsRound ((1223 : ℕ) * presetScale 612 792 (1/4) 1223 1) : ℤ) : ℚ) := rfl
  rw [hd, hs]
  norm_num [jsRound]

/-- C4 (amended): for every named preset page `(pw, ph)` in portrait
orientation, margin `m ≥ 0` and image `(w, h)` with positive dimensions, the
drawn dimensions exceed the available area by at most the half-point
introduced by `Math.round` — `drawW ≤ (pw - 2m) + 1/2` and
`drawH ≤ (ph - 2m) + 1/2` — and the applied scale never exceeds 1, even when
the image is smaller than the available area. -/
theorem c4_preset_portrait_bounds (pw ph m : ℚ) (w h : ℕ)
    (hw : 1 ≤ w) (hh : 1 ≤ h) (hm : 0 ≤ m) :
    (presetLayout pw ph false m w h).drawW ≤ (pw - 2 * m) + 1/2 ∧
    (presetLayout pw ph false m w h).drawH ≤ (ph - 2 * m) + 1/2 ∧
    presetScale pw ph m w h ≤ 1 := by
  have hw0 : (0 : ℚ) < w := by exact_mod_cast Nat.lt_of_lt_of_le Nat.zero_lt_one hw
  have hh0 : (0 : ℚ) < h := by exact_mod_cast Nat.lt_of_lt_of_le Nat.zero_lt_one hh
  have hsle : presetScale pw ph m w h ≤ 1 :=
    (min_le_right _ _).trans (min_le_right _ _)
  have hsW : presetScale pw ph m w h ≤ (pw - m * 2) / w := min_le_left _ _
  have hsH : presetScale pw ph m w h ≤ (ph - m * 2) / h :=
    (min_le_right _ _).trans (min_le_left _ _)
  have hWmul : (w : ℚ) * presetScale pw ph m w h ≤ pw - m * 2 := by
    calc (w : ℚ) * presetScale pw ph m w h
        ≤ (w : ℚ) * ((pw - m * 2) / w) :=
          mul_le_mul_of_nonneg_left hsW (le_of_lt hw0)
      _ = pw - m * 2 := by field_simp
  have hHmul : (h : ℚ) * presetScale pw ph m w h ≤ ph - m * 2 := by
    calc (h : ℚ) * presetScale pw ph m w h
        ≤ (h : ℚ) * ((ph - m * 2) / h) :=
          mul_le_mul_of_nonneg_left hsH (le_of_lt hh0)
      _ = ph - m * 2 := by field_simp
  have hdW : (presetLayout pw ph false m w h).drawW =
      ((jsRound ((w : ℚ) * presetScale pw ph m w h) : ℤ) : ℚ) := rfl
  have hdH : (presetLayout pw ph false m w h).drawH =
      ((jsRound ((h : ℚ) * presetScale pw ph m w h) : ℤ) : ℚ) := rfl
  have hfloorW : ((jsRound ((w : ℚ) * presetScale pw ph m w h) : ℤ) : ℚ) ≤
      (w : ℚ) * presetScale pw ph m w h + 1/2 := Int.floor_le _
  have hfloorH : ((jsRound ((h : ℚ) * presetScale pw ph m w h) : ℤ) : ℚ) ≤
      (h : ℚ) * presetScale pw ph m w h + 1/2 := Int.floor_le _
  refine ⟨?_, ?_, hsle⟩
  · rw [hdW]; linarith
  · rw [hdH]; linarith

/-- C4 witness: letter preset, portrait, margin 0, image 10×20. -/
theorem c4_preset_portrait_bounds_witness :
    (1 ≤ 10 ∧ 1 ≤ 20 ∧ (0 : ℚ) ≤ 0) ∧
    ((presetLayout 612 792 false 0 10 20).drawW ≤ ((612 : ℚ) - 2 * 0) + 1/2 ∧
     (presetLayout 612 792 false 0 10 20).drawH ≤ ((792 : ℚ) - 2 * 0) + 1/2 ∧
     presetScale 612 792 0 10 20 ≤ 1) :=
  ⟨⟨by norm_num, by norm_num, by norm_num⟩,
   c4_preset_portrait_bounds 612 792 0 10 20 (by norm_num) (by norm_num) (by norm_num)⟩

theorem padDigits_length (w n : ℕ) : (padDigits w n).length = w := by
  induction w generalizing n with
  | zero => rfl
  | succ w ih => simp [padDigits, ih]

theorem padDigits_lt_ten (w n : ℕ) (hn : n < 10 ^ w) :
    ∀ d ∈ padDigits w n, d < 10 := by
  induction w generalizing n with
  | zero => intro d hd; cases hd
  | succ w ih =>
    intro d hd
    rcases List.mem_cons.mp hd with h | h
    · subst h
      have : n < 10 * 10 ^ w := by
        rw [pow_succ] at hn; linarith
      exact Nat.div_lt_of_lt_mul (by linarith)
    · exact ih (n % 10 ^ w) (Nat.mod_lt _ (Nat.pos_pow_of_pos w (by norm_num))) d h

theorem padDigits_lex (w i j : ℕ) (hij : i < j) (hj : j < 10 ^ w) :
    List.Lex (· < ·) (padDigits w i) (padDigits w j) := by
  induction w generalizing i j with
  | zero =>
    exfalso
    simp only [pow_zero] at hj
    omega
  | succ w ih =>
    have hq : i / 10 ^ w ≤ j / 10 ^ w := Nat.div_le_div_right hij.le
    rcases lt_or_eq_of_le hq with hlt | heq
    · exact List.Lex.rel hlt
    · simp only [padDigits]
      rw [heq]
      apply List.Lex.cons
      apply ih
      · have hi := Nat.div_add_mod i (10 ^ w)
        have hj2 := Nat.div_add_mod j (10 ^ w)
        rw [heq] at hi
        omega
      · exact Nat.mod_lt _ (Nat.pos_pow_of_pos w (by norm_num))

theorem lex_map_add (c : ℕ) {l1 l2 : List ℕ} (h : List.Lex (· < ·) l1 l2) :
    List.Lex (· < ·) (l1.map (fun d => c + d)) (l2.map (fun d => c + d)) := by
  induction h with
  | nil => exact List.Lex.nil
  | rel hr => exact List.Lex.rel (Nat.add_lt_add_left hr c)
  | cons _ ih => exact List.Lex.cons ih

theorem lex_append_left (s : List ℕ) {t1 t2 : List ℕ}
    (h : List.Lex (· < ·) t1 t2) :
    List.Lex (· < ·) (s ++ t1) (s ++ t2) := by
  induction s with
  | nil => exact h
  | cons a s ih => exact List.Lex.cons ih

theorem lex_append_of_length_eq {t1 t2 : List ℕ}
    (h : List.Lex (· < ·) t1 t2) :
    t1.length = t2.length →
      ∀ u1 u2 : List ℕ, List.Lex (· < ·) (t1 ++ u1) (t2 ++ u2) := by
  induction h with
  | nil => intro hlen; cases hlen
  | rel hr => intro _ u1 u2; exact List.Lex.rel hr
  | cons _ ih =>
    intro hlen u1 u2
    exact List.Lex.cons (ih (by simpa using hlen) u1 u2)

theorem pdftoppmName_lex (w i j : ℕ) (hij : i < j) (hj : j < 10 ^ w) :
    List.Lex (· < ·) (pdftoppmName w i) (pdftoppmName w j) := by
  unfold pdftoppmName
  rw [List.append_assoc, List.append_assoc]
  apply lex_append_left
  apply lex_append_of_length_eq (lex_map_add 48 (padDigits_lex w i j hij hj))
  simp [padDigits_length]

theorem toLowerCodes_eq_self (l : List ℕ) (h : ∀ c ∈ l, c < 65 ∨ 90 < c) :
    toLowerCodes l = l := by
  induction l with
  | nil => rfl
  | cons c cs ih =>
    have hc := h c (List.mem_cons_self c cs)
    have htail : toLowerCodes cs = cs :=
      ih (fun d hd => h d (List.mem_cons_of_mem c hd))
    simp only [toLowerCodes, List.map_cons] at htail ⊢
    rw [if_neg (by omega), htail]

theorem isSuffixOf_append (pre suf : List ℕ) :
    suf.isSuffixOf (pre ++ suf) = true := by
  rw [List.isSuffixOf_iff_suffix]
  exact ⟨pre, rfl⟩

theorem isPngFile_pdftoppmName (w i : ℕ) (hi : i < 10 ^ w) :
    isPngFile (pdftoppmName w i) = true := by
  have hcodes : ∀ c ∈ pdftoppmName w i, c < 65 ∨ 90 < c := by
    intro c hc
    unfold pdftoppmName at hc
    have hpre : ∀ c ∈ strCodes "page-", c < 65 ∨ 90 < c := by decide
    have hsuf : ∀ c ∈ strCodes ".png", c < 65 ∨ 90 < c := by decide
    simp only [List.append_assoc, List.mem_append, List.mem_map] at hc
    rcases hc with h1 | ⟨d, hd, rfl⟩ | h1
    · exact hpre c h1
    · have := padDigits_lt_ten w i hi d hd
      omega
    · exact hsuf c h1
  unfold isPngFile
  rw [toLowerCodes_eq_self _ hcodes]
  unfold pdftoppmName
  rw [List.append_assoc, ← List.append_assoc (strCodes "page-")]
  exact isSuffixOf_append _ _

theorem mem_range_one_le {K j : ℕ} (hj : j ∈ List.range' 1 K) : 1 ≤ j ∧ j ≤ K := by
  obtain ⟨i, hi, rfl⟩ := List.mem_range'.mp hj
  omega

theorem canonical_names_sorted (w K : ℕ) (hK : K < 10 ^ w) :
    List.Sorted (· ≤ ·) ((List.range' 1 K).map (fun i => pdftoppmName w i)) := by
  rw [List.Sorted, List.pairwise_map]
  apply List.Pairwise.imp_of_mem ?_ (List.pairwise_lt_range' 1 K)
  intro a b _ hb hab
  have hbw : b < 10 ^ w := lt_of_le_of_lt (mem_range_one_le hb).2 hK
  exact le_of_lexLt (pdftoppmName_lex w a b hab hbw)

theorem canonical_names_nodup (w K : ℕ) (hK : K < 10 ^ w) :
    ((List.range' 1 K).map (fun i => pdftoppmName w i)).Nodup := by
  show List.Pairwise _ _
  rw [List.pairwise_map]
  apply List.Pairwise.imp_of_mem ?_ (List.pairwise_lt_range' 1 K)
  intro a b _ hb hab
  have hbw : b < 10 ^ w := lt_of_le_of_lt (mem_range_one_le hb).2 hK
  exact ne_of_lexLt (pdftoppmName_lex w a b hab hbw)

theorem alookup_canonical (w : ℕ) (raster : ℕ → Bytes) :
    ∀ (n s : ℕ), s + n ≤ 10 ^ w →
      ∀ i, s ≤ i → i < s + n →
        alookup ((List.range' s n).map (fun j => (pdftoppmName w j, raster j)))
          (pdftoppmName w i) = some (raster i) := by
  intro n
  induction n with
  | zero => intro s _ i _ hi2; omega
  | succ n ih =>
    intro s hs i hi1 hi2
    rw [List.range'_succ, List.map_cons]
    by_cases hse : s = i
    · subst hse
      simp [alookup]
    · have hsi : s < i := lt_of_le_of_ne hi1 hse
      have hne : pdftoppmName w s ≠ pdftoppmName w i :=
        ne_of_lexLt (pdftoppmName_lex w s i hsi (by omega))
      simp only [alookup]
      rw [if_neg hne]
      exact ih (s + 1) (by omega) i (by omega) (by omega)

theorem numberEntries_congr (files : List Filename) (c1 c2 : Filename → Bytes)
    (h : ∀ f ∈ files, c1 f = c2 f) :
    ∀ i, numberEntries i files c1 = numberEntries i files c2 := by
  induction files with
  | nil => intro i; rfl
  | cons f fs ih =>
    intro i
    simp only [numberEntries]
    rw [h f (List.mem_cons_self f fs),
      ih (fun g hg => h g (List.mem_cons_of_mem f hg)) (i + 1)]

theorem numberEntries_range (content : Filename → Bytes) (g : ℕ → Filename) :
    ∀ (n i : ℕ),
      numberEntries i ((List.range' (i + 1) n).map g) content =
        (List.range' (i + 1) n).map (fun j => (entryName j, content (g j))) := by
  intro n
  induction n with
  | zero => intro i; rfl
  | succ n ih =>
    intro i
    rw [List.range'_succ, List.map_cons, List.map_cons]
    simp only [numberEntries]
    exact congrArg (List.cons _) (ih (i + 1))

/-- C6: for a `K`-page document whose rasterization writes, in arbitrary
directory order, one `page-<padded i>.png` file per page `i` (padding width
`w` wide enough for `K`), the archive built by the handler has exactly `K`
entries named `page_1.png` … `page_K.png` whose order matches the page
order: entry `i` holds the rasterization of page `i`. -/
theorem c6_archive_k_pages_in_order (w K : ℕ) (hK : K < 10 ^ w)
    (raster : ℕ → Bytes) (dir : List (Filename × Bytes))
    (hdir : dir.Perm (rasterDirCanonical w K raster)) :
    archiveEntries dir =
      (List.range' 1 K).map (fun i => (entryName i, raster i)) ∧
    (archiveEntries dir).length = K := by
  have hmapfst : (rasterDirCanonical w K raster).map Prod.fst =
      (List.range' 1 K).map (fun i => pdftoppmName w i) := by
    simp [rasterDirCanonical, List.map_map]
  have hnodup := canonical_names_nodup w K hK
  have hfilter : ((List.range' 1 K).map (fun i => pdftoppmName w i)).filter isPngFile
      = (List.range' 1 K).map (fun i => pdftoppmName w i) := by
    rw [List.filter_eq_self]
    intro a ha
    obtain ⟨j, hj, rfl⟩ := List.mem_map.mp ha
    exact isPngFile_pdftoppmName w j (lt_of_le_of_lt (mem_range_one_le hj).2 hK)
  have hpermNames : ((dir.map Prod.fst).filter isPngFile).Perm
      ((List.range' 1 K).map (fun i => pdftoppmName w i)) := by
    have h1 : (dir.map Prod.fst).Perm
        ((List.range' 1 K).map (fun i => pdftoppmName w i)) :=
      hmapfst ▸ hdir.map Prod.fst
    have h2 := h1.filter isPngFile
    rw [hfilter] at h2
    exact h2
  have hsortEq : sortedPngNames dir =
      (List.range' 1 K).map (fun i => pdftoppmName w i) := by
    unfold sortedPngNames
    exact insertionSort_eq_of_perm_sorted hpermNames (canonical_names_sorted w K hK)
  have hdirkeys : (dir.map Prod.fst).Nodup := by
    have hdk := (hdir.map Prod.fst).nodup_iff
    rw [hmapfst] at hdk
    exact hdk.mpr hnodup
  have harch : archiveEntries dir =
      (List.range' 1 K).map (fun j => (entryName j, raster j)) := by
    unfold archiveEntries
    rw [hsortEq]
    rw [numberEntries_range (fun n => (alookup dir n).getD [])
      (fun i => pdftoppmName w i) K 0]
    apply List.map_congr_left
    intro j hj
    have h1 := (mem_range_one_le hj).1
    have h2 := (mem_range_one_le hj).2
    have hcontent : (alookup dir (pdftoppmName w j)).getD [] = raster j := by
      rw [alookup_eq_of_perm hdir hdirkeys]
      rw [show alookup (rasterDirCanonical w K raster) (pdftoppmName w j)
          = some (raster j) from
        alookup_canonical w raster K 1 (by omega) j h1 (by omega)]
      rfl
    rw [hcontent]
  refine ⟨harch, by rw [harch]; simp⟩

/-- C6 witness: a 10-page document (padding width 2) whose working-directory
listing arrives in a scrambled order; the archive is the ten entries
`page_1.png` … `page_10.png` holding pages 1 … 10 in order. -/
theorem c6_archive_k_pages_in_order_witness :
    (10 < 10 ^ 2 ∧
     ((rasterDirCanonical 2 10 (fun i => [i])).reverse).Perm
        (rasterDirCanonical 2 10 (fun i => [i]))) ∧
    (archiveEntries ((rasterDirCanonical 2 10 (fun i => [i])).reverse) =
      (List.range' 1 10).map (fun i => (entryName i, [i])) ∧
     (archiveEntries ((rasterDirCanonical 2 10 (fun i => [i])).reverse)).length = 10) :=
  ⟨⟨by norm_num, List.reverse_perm _⟩,
   c6_archive_k_pages_in_order 2 10 (by norm_num) (fun i => [i]) _
     (List.reverse_perm _)⟩

theorem charToNat_injective : Function.Injective Char.toNat := by
  intro c d hcd
  have h1 := Char.ofNat_toNat c
  have h2 := Char.ofNat_toNat d
  rw [hcd] at h1
  exact h1.symm.trans h2

theorem strCodes_injective (s t : String) (hst : strCodes s = strCodes t) :
    s = t := by
  have hdata : s.data = t.data :=
    List.map_injective_iff.mpr charToNat_injective hst
  cases s
  cases t
  simp only at hdata
  rw [hdata]

theorem chunkName_injective (i j : String) (h : chunkName i = chunkName j) :
    i = j := by
  unfold chunkName at h
  have h2 : "chunk_" ++ i = "chunk_" ++ j := strCodes_injective _ _ h
  have h3 : ("chunk_" ++ i).data = ("chunk_" ++ j).data := congrArg String.data h2
  rw [String.data_append, String.data_append] at h3
  have h4 : i.data = j.data := List.append_cancel_left h3
  cases i
  cases j
  simp only at h4
  rw [h4]

/-- C7: for chunk sets with pairwise-distinct indices, the assembled artifact
does not depend on the arrival order of the uploads: any two arrival orders
of the same chunks (in particular, any permuted order versus strictly
ascending index order) produce byte-identical assembled output. -/
theorem c7_assemble_arrival_order_invariant (ups1 ups2 : List (String × Bytes))
    (hp : ups1.Perm ups2) (hn : (ups1.map Prod.fst).Nodup) :
    assembleBytes (storeChunks ups1) = assembleBytes (storeChunks ups2) := by
  have hdirs : (storeChunks ups1).Perm (storeChunks ups2) := hp.map _
  have hkeys1 : ((storeChunks ups1).map Prod.fst).Nodup := by
    have hmm : (storeChunks ups1).map Prod.fst = (ups1.map Prod.fst).map chunkName := by
      simp [storeChunks, List.map_map]
    rw [hmm]
    exact hn.map (fun a b hab => chunkName_injective a b hab)
  have hnamesPerm : (((storeChunks ups1).map Prod.fst).filter isChunkFile).Perm
      (((storeChunks ups2).map Prod.fst).filter isChunkFile) :=
    (hdirs.map Prod.fst).filter _
  have hsortEq : sortedChunkNames (storeChunks ups1) =
      sortedChunkNames (storeChunks ups2) := by
    unfold sortedChunkNames
    exact List.eq_of_perm_of_sorted
      (((List.perm_insertionSort _ _).trans hnamesPerm).trans
        (List.perm_insertionSort _ _).symm)
      (List.sorted_insertionSort _ _) (List.sorted_insertionSort _ _)
  unfold assembleBytes
  rw [hsortEq]
  congr 1
  apply List.map_congr_left
  intro n _
  rw [alookup_eq_of_perm hdirs hkeys1 n]

/-- C7 witness: the chunks with indices `"2"`, `"1"` uploaded in that order
assemble to the same bytes as when uploaded in ascending order `"1"`, `"2"`. -/
theorem c7_assemble_arrival_order_invariant_witness :
    (([("2", [5]), ("1", [7])] : List (String × Bytes)).Perm
       [("1", [7]), ("2", [5])] ∧
     (([("2", [5]), ("1", [7])] : List (String × Bytes)).map Prod.fst).Nodup) ∧
    assembleBytes (storeChunks [("2", [5]), ("1", [7])]) =
      assembleBytes (storeChunks [("1", [7]), ("2", [5])]) :=
  ⟨⟨List.Perm.swap _ _ _, by decide⟩,
   c7_assemble_arrival_order_invariant _ _ (List.Perm.swap _ _ _) (by decide)⟩
